import Mathlib

/-!
# Verification of the Gurukulam lecturer timing core

Shallow embedding of the subtitle timing components of the
`Srijan-Saswat/Gurukulam_lecturer` repository:

* the narration timing allocator
  (`LectureTTSGenerator.generate_subtitles` in
  `demo_lecturer/lecture_generator.py`, mirrored in
  `demo_lecturer/lecture_gen.py`),
* the cumulative audio sequencing pass
  (`LectureTTSGenerator.generate_audio_segments`),
* the transcript re-binner
  (`parse_srt_file` in `demo_lecturer/sync_subtitles.py`: slide-boundary
  construction and cue assignment), and
* the final normalization step of `TextPreprocessor.clean_for_tts`.

Times and durations are modelled as exact rationals (`ℚ`); the Python code
uses floats, and the specification's guarantees are stated "in exact
arithmetic" / "mod floating-point rounding".  External collaborators (the
TTS engine, `librosa` duration probing, `nltk` sentence segmentation) are
modelled as function parameters, since the core only consumes their
outputs.
-/

/-- `SubtitleSegment` dataclass of `lecture_generator.py`
(`text`, `start_time`, `end_time`).  The re-binner's per-slide dict entries
(`{'start': …, 'end': …, 'text': …}`) carry the same three fields and are
represented with this structure as well. -/
structure SubtitleSegment where
  text : String
  start_time : ℚ
  end_time : ℚ
deriving Repr, DecidableEq

/-- `SlideContent` dataclass of `lecture_generator.py`
(`slide_number`, `image_path`, `narration_text`, `duration = 0.0`,
`start_time = 0.0`). -/
structure SlideContent where
  slide_number : ℕ
  image_path : String
  narration_text : String
  duration : ℚ := 0
  start_time : ℚ := 0
deriving Repr, DecidableEq

/-- One parsed cue of the external transcript: an entry of `all_subtitles`
in `sync_subtitles.py` (`{'start': …, 'end': …, 'text': …}`).  The Python
key `end` is named `stop` here because `end` is a Lean keyword. -/
structure Cue where
  start : ℚ
  stop : ℚ
  text : String
deriving Repr, DecidableEq

/-- One entry of the `slide_boundaries` dict of `sync_subtitles.py`
(lines 31–38): a slide number with its absolute `start`/`end` interval.
The Python key `end` is named `stop` here because `end` is a Lean keyword. -/
structure SlideBoundary where
  slide_num : ℕ
  start : ℚ
  stop : ℚ
deriving Repr, DecidableEq

/-! ## Narration timing allocator (`generate_subtitles`) -/

/-- Python's `str.strip()` (with no argument): remove leading and trailing
whitespace characters. -/
def str_strip (s : String) : String :=
  ⟨((s.data.dropWhile Char.isWhitespace).reverse.dropWhile
      Char.isWhitespace).reverse⟩

/-- Body of the per-slide loop of
`LectureTTSGenerator.generate_subtitles` (`lecture_generator.py`
lines 215–227): skip the slide when its narration is blank or its duration
is zero, otherwise split into sentences (`split` stands for the external
`TextPreprocessor.split_into_sentences`), skip when there are none, and
give sentence `i` the slice
`[start_time + i*dur, start_time + (i+1)*dur]` with
`dur = duration / len(sentences)`. -/
def slide_segments (split : String → List String) (slide : SlideContent) :
    List SubtitleSegment :=
  if str_strip slide.narration_text = "" ∨ slide.duration = 0 then []
  else
    let sentences := split slide.narration_text
    if sentences = [] then []
    else
      let dur := slide.duration / sentences.length
      sentences.enum.map fun p =>
        { text := p.2
          start_time := slide.start_time + p.1 * dur
          end_time := slide.start_time + (p.1 + 1) * dur }

/-- `LectureTTSGenerator.generate_subtitles`: the flat `self.subtitles`
list built by iterating the slides in order and appending each slide's
segments. -/
def generate_subtitles (split : String → List String)
    (slides : List SlideContent) : List SubtitleSegment :=
  slides.foldl (fun subs slide => subs ++ slide_segments split slide) []

example :
    slide_segments (fun _ => ["a.", "b."])
      { slide_number := 1, image_path := "", narration_text := "a. b.",
        duration := 10, start_time := 0 } =
      [⟨"a.", 0, 5⟩, ⟨"b.", 5, 10⟩] := by
  norm_num +decide [slide_segments, str_strip, List.enum, List.dropWhile]

example :
    slide_segments (fun _ => ["a"])
      { slide_number := 1, image_path := "", narration_text := "a",
        duration := 0, start_time := 0 } = [] := by
  norm_num +decide [slide_segments, str_strip, List.dropWhile]

/-- The allocator's main branch: with non-blank narration, nonzero duration
and a nonempty sentence list, `slide_segments` is the enumerated uniform
slicing. -/
theorem slide_segments_eq (split : String → List String)
    (slide : SlideContent)
    (htext : str_strip slide.narration_text ≠ "")
    (hd : slide.duration ≠ 0)
    (hne : split slide.narration_text ≠ []) :
    slide_segments split slide =
      (split slide.narration_text).enum.map fun p =>
        { text := p.2
          start_time := slide.start_time +
            p.1 * (slide.duration / (split slide.narration_text).length)
          end_time := slide.start_time +
            (p.1 + 1) * (slide.duration / (split slide.narration_text).length) } := by
  simp only [slide_segments]
  rw [if_neg (not_or.mpr ⟨htext, hd⟩), if_neg hne]

/-- C1: for every slide whose narration has total duration `D > 0` and a
non-empty list of `n` sentences, the allocator produces exactly `n`
segments; segment `i` starts at offset `i*(D/n)` and ends at offset
`(i+1)*(D/n)` from the slide's start, so each segment has duration `D/n`,
consecutive segments are contiguous (segment `i`'s `end_time` equals
segment `i+1`'s `start_time`), and the final segment ends exactly at
offset `D` (exact rational arithmetic). -/
theorem C1_allocator_uniform (split : String → List String)
    (slide : SlideContent) (i : ℕ)
    (hD : 0 < slide.duration)
    (htext : str_strip slide.narration_text ≠ "")
    (hi : i < (split slide.narration_text).length) :
    (slide_segments split slide).length = (split slide.narration_text).length ∧
    (slide_segments split slide)[i]? =
      some { text := (split slide.narration_text)[i]
             start_time := slide.start_time +
               i * (slide.duration / (split slide.narration_text).length)
             end_time := slide.start_time +
               (i + 1) * (slide.duration / (split slide.narration_text).length) } ∧
    Option.map (fun s => s.end_time - s.start_time)
        (slide_segments split slide)[i]? =
      some (slide.duration / (split slide.narration_text).length) ∧
    (i + 1 < (split slide.narration_text).length →
      Option.map SubtitleSegment.end_time (slide_segments split slide)[i]? =
        Option.map SubtitleSegment.start_time
          (slide_segments split slide)[i + 1]?) ∧
    (i = (split slide.narration_text).length - 1 →
      Option.map SubtitleSegment.end_time (slide_segments split slide)[i]? =
        some (slide.start_time + slide.duration)) := by
  have hne : split slide.narration_text ≠ [] := by
    intro h
    rw [h] at hi
    simp at hi
  have hd : slide.duration ≠ 0 := ne_of_gt hD
  have hseg := slide_segments_eq split slide htext hd hne
  have hn : ((split slide.narration_text).length : ℚ) ≠ 0 := by
    exact_mod_cast List.length_pos.mpr hne |>.ne'
  refine ⟨by simp [hseg], ?_, ?_, ?_, ?_⟩
  · simp [hseg, List.getElem?_enum, List.getElem?_eq_getElem hi]
  · simp [hseg, List.getElem?_enum, List.getElem?_eq_getElem hi]
    ring
  · intro hi1
    simp [hseg, List.getElem?_enum, List.getElem?_eq_getElem hi,
      List.getElem?_eq_getElem hi1]
  · intro hlast
    have h1 : 1 ≤ (split slide.narration_text).length :=
      List.length_pos.mpr hne
    simp [hseg, List.getElem?_enum, List.getElem?_eq_getElem hi]
    rw [hlast]
    have : ((split slide.narration_text).length - 1 + 1 : ℚ) =
        ((split slide.narration_text).length : ℚ) := by ring
    push_cast [Nat.cast_sub h1]
    field_simp

theorem C1_allocator_uniform_witness :
    (slide_segments (fun _ => ["a.", "b."])
        { slide_number := 1, image_path := "", narration_text := "a. b.",
          duration := 10, start_time := 0 }).length = 2 ∧
    (slide_segments (fun _ => ["a.", "b."])
        { slide_number := 1, image_path := "", narration_text := "a. b.",
          duration := 10, start_time := 0 })[1]? = some ⟨"b.", 5, 10⟩ := by
  have h := C1_allocator_uniform (fun _ => ["a.", "b."])
    { slide_number := 1, image_path := "", narration_text := "a. b.",
      duration := 10, start_time := 0 } 1 (by norm_num) (by decide) (by decide)
  obtain ⟨h1, h2, -, -, -⟩ := h
  refine ⟨h1, ?_⟩
  rw [h2]
  norm_num

/-! ## Transcript re-binner (`parse_srt_file`, `sync_subtitles.py`) -/

/-- One step of Python's `sorted`: insert a key-duration pair into an
already key-sorted list. -/
def insort (p : ℕ × ℚ) : List (ℕ × ℚ) → List (ℕ × ℚ)
  | [] => [p]
  | q :: qs => if p.1 ≤ q.1 then p :: q :: qs else q :: insort p qs

/-- `sorted(audio_durations.keys())` of `sync_subtitles.py` line 33: the
`audio_durations` dict (modelled as an association list in insertion
order, keys distinct) re-ordered by ascending slide number. -/
def sort_keys : List (ℕ × ℚ) → List (ℕ × ℚ)
  | [] => []
  | p :: ps => insort p (sort_keys ps)

/-- The boundary-building loop of `parse_srt_file` (lines 31–38),
parameterized by the running `cumulative_time`: each slide gets
`{'start': cumulative_time, 'end': cumulative_time + duration}` and the
cumulative time advances by its duration. -/
def slide_boundaries_go : List (ℕ × ℚ) → ℚ → List SlideBoundary
  | [], _ => []
  | (n, d) :: rest, cumulative_time =>
    { slide_num := n, start := cumulative_time, stop := cumulative_time + d } ::
      slide_boundaries_go rest (cumulative_time + d)

/-- The `slide_boundaries` dict of `parse_srt_file` (lines 31–38), in its
iteration order: slide numbers ascending (`for slide_num in
sorted(audio_durations.keys())`), starting from `cumulative_time = 0`. -/
def slide_boundaries (audio_durations : List (ℕ × ℚ)) : List SlideBoundary :=
  slide_boundaries_go (sort_keys audio_durations) 0

/-- The inner boundary-search loop of `parse_srt_file` (lines 81–92):
scan the boundaries in iteration order and stop (`break`) at the first
with `bounds['start'] <= sub['start'] < bounds['end']`. -/
def find_slide : List SlideBoundary → ℚ → Option SlideBoundary
  | [], _ => none
  | b :: bs, t => if b.start ≤ t ∧ t < b.stop then some b else find_slide bs t

/-- Line 87–91 of `parse_srt_file`: the segment appended for a cue matched
to boundary `b` — timing made relative to the slide start, text kept. -/
def cue_to_segment (b : SlideBoundary) (c : Cue) : SubtitleSegment :=
  { text := c.text, start_time := c.start - b.start, end_time := c.stop - b.start }

/-- Python-dict update `subtitles_by_slide[n].append(s)` (creating the key
with `[]` first when absent, lines 83–91): association list in key
insertion order. -/
def dict_append : List (ℕ × List SubtitleSegment) → ℕ → SubtitleSegment →
    List (ℕ × List SubtitleSegment)
  | [], n, s => [(n, [s])]
  | (m, l) :: rest, n, s =>
    if m = n then (m, l ++ [s]) :: rest else (m, l) :: dict_append rest n s

/-- One iteration of the cue-assignment loop of `parse_srt_file`
(lines 79–92): find the cue's boundary; if none matches the cue is
silently skipped. -/
def rebin_step (bounds : List SlideBoundary)
    (m : List (ℕ × List SubtitleSegment)) (sub : Cue) :
    List (ℕ × List SubtitleSegment) :=
  match find_slide bounds sub.start with
  | some b => dict_append m b.slide_num (cue_to_segment b sub)
  | none => m

/-- The re-binning core of `parse_srt_file` (`sync_subtitles.py`
lines 31–38 and 76–94): build the slide boundaries from the per-slide
audio durations, then fold the assignment loop over the parsed cues
(`all_subtitles`), producing the `subtitles_by_slide` mapping.  The
upstream SRT text parsing (lines 44–74) only produces the cue list and is
taken as input. -/
def rebin (audio_durations : List (ℕ × ℚ)) (cues : List Cue) :
    List (ℕ × List SubtitleSegment) :=
  cues.foldl (rebin_step (slide_boundaries audio_durations)) []

/-- The cues assigned to slide `n`, in encounter order, each converted to
slide-relative timing — the specification's description of slide `n`'s
output list. -/
def assigned_segments (bounds : List SlideBoundary) (cues : List Cue)
    (n : ℕ) : List SubtitleSegment :=
  cues.filterMap fun c =>
    match find_slide bounds c.start with
    | some b => if b.slide_num = n then some (cue_to_segment b c) else none
    | none => none

example :
    rebin [(1, 3), (2, 4), (3, 2)]
      [⟨0, 1, "A"⟩, ⟨3.5, 4, "B"⟩, ⟨8, 8.5, "C"⟩, ⟨9.5, 10, "D"⟩] =
      [(1, [⟨"A", 0, 1⟩]), (2, [⟨"B", 0.5, 1⟩]), (3, [⟨"C", 1, 1.5⟩])] := by
  norm_num [rebin, rebin_step, slide_boundaries, sort_keys, insort,
    slide_boundaries_go, find_slide, dict_append, cue_to_segment]

theorem lookup_dict_append_self (m : List (ℕ × List SubtitleSegment))
    (n : ℕ) (s : SubtitleSegment) :
    List.lookup n (dict_append m n s) =
      some ((List.lookup n m).getD [] ++ [s]) := by
  induction m with
  | nil => simp [dict_append, List.lookup]
  | cons p rest ih =>
    obtain ⟨k, l⟩ := p
    by_cases h : k = n
    · subst h
      simp [dict_append, List.lookup]
    · simp only [dict_append, if_neg h]
      rw [List.lookup, List.lookup]
      have hbeq : (n == k) = false := by
        simp [Ne.symm h]
      simp [hbeq, ih]

theorem lookup_dict_append_ne (m : List (ℕ × List SubtitleSegment))
    (k n : ℕ) (s : SubtitleSegment) (h : k ≠ n) :
    List.lookup n (dict_append m k s) = List.lookup n m := by
  have hk : (n == k) = false := by
    simp [Ne.symm h]
  induction m with
  | nil =>
    simp [dict_append, List.lookup, hk]
  | cons p rest ih =>
    obtain ⟨k', l⟩ := p
    by_cases h' : k' = k
    · subst h'
      simp [dict_append, List.lookup, hk]
    · simp only [dict_append, if_neg h']
      rw [List.lookup, List.lookup]
      cases hbeq : (n == k') <;> simp [ih]

theorem lookup_rebin_foldl_some (bounds : List SlideBoundary)
    (cues : List Cue) :
    ∀ (m : List (ℕ × List SubtitleSegment)) (n : ℕ)
      (l : List SubtitleSegment), List.lookup n m = some l →
      List.lookup n (List.foldl (rebin_step bounds) m cues) =
        some (l ++ assigned_segments bounds cues n) := by
  induction cues with
  | nil =>
    intro m n l h
    simp [assigned_segments, h]
  | cons c rest ih =>
    intro m n l h
    simp only [List.foldl_cons]
    cases hf : find_slide bounds c.start with
    | none =>
      rw [show rebin_step bounds m c = m by simp [rebin_step, hf]]
      rw [ih m n l h]
      simp [assigned_segments, List.filterMap_cons, hf]
    | some b =>
      rw [show rebin_step bounds m c =
        dict_append m b.slide_num (cue_to_segment b c) by simp [rebin_step, hf]]
      by_cases hb : b.slide_num = n
      · subst hb
        have h1 := lookup_dict_append_self m b.slide_num (cue_to_segment b c)
        rw [h, Option.getD_some] at h1
        rw [ih _ _ _ h1]
        simp [assigned_segments, List.filterMap_cons, hf]
      · have h1 := lookup_dict_append_ne m b.slide_num n (cue_to_segment b c) hb
        rw [h] at h1
        rw [ih _ _ _ h1]
        simp [assigned_segments, List.filterMap_cons, hf, hb]

theorem lookup_rebin_foldl_none (bounds : List SlideBoundary)
    (cues : List Cue) :
    ∀ (m : List (ℕ × List SubtitleSegment)) (n : ℕ),
      List.lookup n m = none →
      List.lookup n (List.foldl (rebin_step bounds) m cues) =
        if assigned_segments bounds cues n = [] then none
        else some (assigned_segments bounds cues n) := by
  induction cues with
  | nil =>
    intro m n h
    simp [assigned_segments, h]
  | cons c rest ih =>
    intro m n h
    simp only [List.foldl_cons]
    cases hf : find_slide bounds c.start with
    | none =>
      rw [show rebin_step bounds m c = m by simp [rebin_step, hf]]
      rw [ih m n h]
      simp [assigned_segments, List.filterMap_cons, hf]
    | some b =>
      rw [show rebin_step bounds m c =
        dict_append m b.slide_num (cue_to_segment b c) by simp [rebin_step, hf]]
      by_cases hb : b.slide_num = n
      · subst hb
        have h1 := lookup_dict_append_self m b.slide_num (cue_to_segment b c)
        rw [h, Option.getD_none, List.nil_append] at h1
        rw [lookup_rebin_foldl_some bounds rest _ _ _ h1]
        simp [assigned_segments, List.filterMap_cons, hf]
      · have h1 := lookup_dict_append_ne m b.slide_num n (cue_to_segment b c) hb
        rw [h] at h1
        rw [ih _ _ h1]
        simp [assigned_segments, List.filterMap_cons, hf, hb]

theorem assigned_segments_ne_nil_iff (bounds : List SlideBoundary)
    (cues : List Cue) (n : ℕ) :
    assigned_segments bounds cues n ≠ [] ↔
      ∃ c ∈ cues, ∃ b, find_slide bounds c.start = some b ∧
        b.slide_num = n := by
  rw [assigned_segments, Ne, List.filterMap_eq_nil_iff]
  push_neg
  constructor
  · rintro ⟨c, hc, hne⟩
    cases hf : find_slide bounds c.start with
    | none =>
      rw [hf] at hne
      simp at hne
    | some b =>
      rw [hf] at hne
      by_cases hb : b.slide_num = n
      · exact ⟨c, hc, b, hf, hb⟩
      · simp [hb] at hne
  · rintro ⟨c, hc, b, hf, hb⟩
    refine ⟨c, hc, ?_⟩
    simp [hf, hb]

/-- C4: every cue the re-binner assigns to slide `n` yields the segment
`⟨cue.text, cue.start - boundary(n).start, cue.end - boundary(n).start⟩`
(text unchanged, timing origin-shifted, the end not re-derived), and
slide `n`'s output list is exactly these segments in the cues' original
encounter order (no re-sorting): the list stored under key `n` equals
`assigned_segments`, the in-order `filterMap` of `cue_to_segment` over the
cues assigned to `n`. -/
theorem C4_relative_shift (audio_durations : List (ℕ × ℚ))
    (cues : List Cue) (n : ℕ) (l : List SubtitleSegment)
    (h : List.lookup n (rebin audio_durations cues) = some l) :
    l = assigned_segments (slide_boundaries audio_durations) cues n := by
  have h0 := lookup_rebin_foldl_none (slide_boundaries audio_durations)
    cues [] n (by simp)
  rw [rebin] at h
  rw [h0] at h
  by_cases hnil :
      assigned_segments (slide_boundaries audio_durations) cues n = []
  · rw [if_pos hnil] at h
    exact absurd h (by simp)
  · rw [if_neg hnil] at h
    exact (Option.some.injEq _ _ ▸ h :
      assigned_segments (slide_boundaries audio_durations) cues n = l).symm

theorem C4_relative_shift_witness :
    List.lookup 2 (rebin [(1, 5), (2, 5)] [⟨7.5, 8.2, "x"⟩]) =
      some [⟨"x", 2.5, 3.2⟩] ∧
    [(⟨"x", 2.5, 3.2⟩ : SubtitleSegment)] =
      assigned_segments (slide_boundaries [(1, 5), (2, 5)])
        [⟨7.5, 8.2, "x"⟩] 2 := by
  have h : List.lookup 2 (rebin [(1, 5), (2, 5)] [⟨7.5, 8.2, "x"⟩]) =
      some [⟨"x", 2.5, 3.2⟩] := by
    norm_num [rebin, rebin_step, slide_boundaries, sort_keys, insort,
      slide_boundaries_go, find_slide, dict_append, cue_to_segment,
      List.lookup]
  exact ⟨h, C4_relative_shift [(1, 5), (2, 5)] [⟨7.5, 8.2, "x"⟩] 2 _ h⟩

/-- C9: the re-binner's output mapping has an entry for slide `n` exactly
when at least one cue was assigned to slide `n`; a slide with no matched
cue is absent (no entry, no empty-list placeholder). -/
theorem C9_key_iff_assigned (audio_durations : List (ℕ × ℚ))
    (cues : List Cue) (n : ℕ) :
    (List.lookup n (rebin audio_durations cues)).isSome ↔
      ∃ c ∈ cues, ∃ b,
        find_slide (slide_boundaries audio_durations) c.start = some b ∧
        b.slide_num = n := by
  rw [← assigned_segments_ne_nil_iff (slide_boundaries audio_durations)]
  rw [rebin, lookup_rebin_foldl_none _ _ [] n (by simp)]
  by_cases hnil :
      assigned_segments (slide_boundaries audio_durations) cues n = []
  · simp [hnil]
  · simp [hnil]

theorem insort_perm (p : ℕ × ℚ) (l : List (ℕ × ℚ)) :
    (insort p l).Perm (p :: l) := by
  induction l with
  | nil => simp [insort]
  | cons q qs ih =>
    by_cases h : p.1 ≤ q.1
    · simp [insort, h]
    · rw [insort, if_neg h]
      exact (ih.cons q).trans (List.Perm.swap p q qs)

theorem sort_keys_perm (l : List (ℕ × ℚ)) : (sort_keys l).Perm l := by
  induction l with
  | nil => simp [sort_keys]
  | cons p ps ih =>
    exact (insort_perm p (sort_keys ps)).trans (ih.cons p)

theorem slide_boundaries_go_start_ge (l : List (ℕ × ℚ)) :
    ∀ (t : ℚ), (∀ p ∈ l, 0 ≤ p.2) →
      ∀ b ∈ slide_boundaries_go l t, t ≤ b.start := by
  induction l with
  | nil =>
    intro t _ b hb
    simp [slide_boundaries_go] at hb
  | cons p rest ih =>
    intro t hd b hb
    obtain ⟨n, d⟩ := p
    rw [slide_boundaries_go, List.mem_cons] at hb
    rcases hb with hb | hb
    · subst hb
      exact le_refl t
    · have h0 : (0:ℚ) ≤ d := hd (n, d) (by simp)
      have := ih (t + d) (fun q hq => hd q (by simp [hq])) b hb
      linarith

theorem slide_boundaries_go_stop_le (l : List (ℕ × ℚ)) :
    ∀ (t : ℚ), (∀ p ∈ l, 0 ≤ p.2) →
      ∀ b ∈ slide_boundaries_go l t,
        b.stop ≤ t + (l.map Prod.snd).sum := by
  induction l with
  | nil =>
    intro t _ b hb
    simp [slide_boundaries_go] at hb
  | cons p rest ih =>
    intro t hd b hb
    obtain ⟨n, d⟩ := p
    rw [slide_boundaries_go, List.mem_cons] at hb
    rcases hb with hb | hb
    · subst hb
      have hsum : (0:ℚ) ≤ (rest.map Prod.snd).sum :=
        List.sum_nonneg fun x hx => by
          obtain ⟨q, hq, rfl⟩ := List.mem_map.mp hx
          exact hd q (by simp [hq])
      simp only [List.map_cons, List.sum_cons]
      linarith
    · have := ih (t + d) (fun q hq => hd q (by simp [hq])) b hb
      simp only [List.map_cons, List.sum_cons]
      linarith

theorem find_slide_first (l : List (ℕ × ℚ)) :
    ∀ (t : ℚ) (b : SlideBoundary), (∀ p ∈ l, 0 ≤ p.2) →
      b ∈ slide_boundaries_go l t → b.start < b.stop →
      find_slide (slide_boundaries_go l t) b.start = some b := by
  induction l with
  | nil =>
    intro t b _ hb _
    simp [slide_boundaries_go] at hb
  | cons p rest ih =>
    intro t b hd hb hlt
    obtain ⟨n, d⟩ := p
    rw [slide_boundaries_go, List.mem_cons] at hb
    rw [slide_boundaries_go]
    rcases hb with hb | hb
    · subst hb
      rw [find_slide, if_pos ⟨le_refl _, hlt⟩]
    · have hge := slide_boundaries_go_start_ge rest (t + d)
        (fun q hq => hd q (by simp [hq])) b hb
      rw [find_slide, if_neg (by
        rintro ⟨-, hcontra⟩
        simp only at hcontra hge
        linarith)]
      exact ih (t + d) b (fun q hq => hd q (by simp [hq])) hb hlt

theorem find_slide_eq_some (l : List SlideBoundary) (t : ℚ)
    (b : SlideBoundary) (h : find_slide l t = some b) :
    b ∈ l ∧ b.start ≤ t ∧ t < b.stop := by
  induction l with
  | nil => simp [find_slide] at h
  | cons b' bs ih =>
    rw [find_slide] at h
    by_cases hc : b'.start ≤ t ∧ t < b'.stop
    · rw [if_pos hc] at h
      cases h
      exact ⟨by simp, hc⟩
    · rw [if_neg hc] at h
      have := ih h
      exact ⟨by simp [this.1], this.2⟩

/-- C2: with nonnegative slide durations, a cue whose start time equals
the start of a (nonempty) slide boundary is matched to exactly that
boundary — boundary membership is half-open `[start, end)` and the scan
takes the first matching boundary in ascending slide-number order, so the
cue lands in that slide, not the previous one. -/
theorem C2_boundary_tie (audio_durations : List (ℕ × ℚ)) (c : Cue)
    (b : SlideBoundary)
    (hd : ∀ p ∈ audio_durations, 0 ≤ p.2)
    (hb : b ∈ slide_boundaries audio_durations)
    (hne : b.start < b.stop)
    (hstart : c.start = b.start) :
    find_slide (slide_boundaries audio_durations) c.start = some b := by
  rw [hstart, slide_boundaries]
  exact find_slide_first (sort_keys audio_durations) 0 b
    (fun q hq => hd q ((sort_keys_perm audio_durations).mem_iff.mp hq))
    hb hne

theorem C2_boundary_tie_witness :
    (⟨2, 5, 10⟩ : SlideBoundary) ∈ slide_boundaries [(1, 5), (2, 5)] ∧
    find_slide (slide_boundaries [(1, 5), (2, 5)]) (5 : ℚ) =
      some ⟨2, 5, 10⟩ := by
  have hb : (⟨2, 5, 10⟩ : SlideBoundary) ∈ slide_boundaries [(1, 5), (2, 5)] := by
    norm_num [slide_boundaries, sort_keys, insort, slide_boundaries_go]
  refine ⟨hb, ?_⟩
  have h := C2_boundary_tie [(1, 5), (2, 5)] ⟨5, 6, "x"⟩ ⟨2, 5, 10⟩
    (by norm_num) hb (by norm_num) rfl
  exact h

/-- C3: with nonnegative slide durations, a cue whose start time is at or
beyond the final boundary's end (the total audio duration) matches no
boundary, so the re-binner silently drops it: removing it from the cue
list leaves the output mapping unchanged, and no error is possible. -/
theorem C3_cue_dropped (audio_durations : List (ℕ × ℚ)) (c : Cue)
    (hd : ∀ p ∈ audio_durations, 0 ≤ p.2)
    (hge : (audio_durations.map Prod.snd).sum ≤ c.start) :
    find_slide (slide_boundaries audio_durations) c.start = none ∧
    ∀ cues₁ cues₂ : List Cue,
      rebin audio_durations (cues₁ ++ c :: cues₂) =
        rebin audio_durations (cues₁ ++ cues₂) := by
  have hsum : ((sort_keys audio_durations).map Prod.snd).sum =
      (audio_durations.map Prod.snd).sum :=
    ((sort_keys_perm audio_durations).map Prod.snd).sum_eq
  have hfind : find_slide (slide_boundaries audio_durations) c.start = none := by
    cases hf : find_slide (slide_boundaries audio_durations) c.start with
    | none => rfl
    | some b =>
      obtain ⟨hb, -, hlt⟩ := find_slide_eq_some _ _ _ hf
      rw [slide_boundaries] at hb
      have := slide_boundaries_go_stop_le (sort_keys audio_durations) 0
        (fun q hq => hd q ((sort_keys_perm audio_durations).mem_iff.mp hq))
        b hb
      rw [hsum] at this
      linarith
  refine ⟨hfind, fun cues₁ cues₂ => ?_⟩
  rw [rebin, rebin, List.foldl_append, List.foldl_append, List.foldl_cons]
  rw [show rebin_step (slide_boundaries audio_durations)
    (List.foldl (rebin_step (slide_boundaries audio_durations)) [] cues₁) c =
    List.foldl (rebin_step (slide_boundaries audio_durations)) [] cues₁ by
      simp [rebin_step, hfind]]

theorem C3_cue_dropped_witness :
    find_slide (slide_boundaries [(1, 5), (2, 5)]) (11 : ℚ) = none ∧
    rebin [(1, 5), (2, 5)] [⟨11, 12, "x"⟩] = [] := by
  have h := C3_cue_dropped [(1, 5), (2, 5)] ⟨11, 12, "x"⟩
    (by norm_num) (by norm_num)
  refine ⟨h.1, ?_⟩
  have h2 := h.2 [] []
  simpa [rebin] using h2

theorem insort_sorted (p : ℕ × ℚ) (l : List (ℕ × ℚ))
    (h : l.Pairwise (fun a b => a.1 ≤ b.1)) :
    (insort p l).Pairwise (fun a b => a.1 ≤ b.1) := by
  induction l with
  | nil => simp [insort]
  | cons q qs ih =>
    rw [List.pairwise_cons] at h
    by_cases hpq : p.1 ≤ q.1
    · rw [insort, if_pos hpq]
      refine List.pairwise_cons.mpr ⟨?_, List.pairwise_cons.mpr h⟩
      intro a ha
      rcases List.mem_cons.mp ha with rfl | ha
      · exact hpq
      · exact le_trans hpq (h.1 a ha)
    · rw [insort, if_neg hpq]
      refine List.pairwise_cons.mpr ⟨?_, ih h.2⟩
      intro a ha
      rcases List.mem_cons.mp ((insort_perm p qs).mem_iff.mp ha) with rfl | ha
      · exact le_of_lt (lt_of_not_le hpq)
      · exact h.1 a ha

theorem sort_keys_sorted (l : List (ℕ × ℚ)) :
    (sort_keys l).Pairwise (fun a b => a.1 ≤ b.1) := by
  induction l with
  | nil => simp [sort_keys]
  | cons p ps ih => exact insort_sorted p (sort_keys ps) ih

theorem sort_keys_sorted_lt (l : List (ℕ × ℚ))
    (hkeys : l.Pairwise (fun p q => p.1 ≠ q.1)) :
    (sort_keys l).Pairwise (fun a b => a.1 < b.1) := by
  have hne : (sort_keys l).Pairwise (fun p q => p.1 ≠ q.1) :=
    ((sort_keys_perm l).pairwise_iff fun h => Ne.symm h).mpr hkeys
  exact ((sort_keys_sorted l).and hne).imp
    fun h => lt_of_le_of_ne h.1 h.2

theorem slide_boundaries_go_mem_of_sorted (l : List (ℕ × ℚ)) :
    ∀ (t : ℚ), l.Pairwise (fun a b => a.1 < b.1) →
      ∀ (n : ℕ) (d : ℚ), (n, d) ∈ l →
      ∃ b ∈ slide_boundaries_go l t, b.slide_num = n ∧
        b.start = t + ((l.filter fun p => p.1 < n).map Prod.snd).sum ∧
        b.stop = b.start + d := by
  induction l with
  | nil =>
    intro t _ n d hmem
    simp at hmem
  | cons p rest ih =>
    intro t hsorted n d hmem
    obtain ⟨m, e⟩ := p
    rw [List.pairwise_cons] at hsorted
    rcases List.mem_cons.mp hmem with heq | hmem
    · cases heq
      refine ⟨⟨n, t, t + d⟩, by simp [slide_boundaries_go], rfl, ?_, by simp⟩
      have hfilter : ((n, d) :: rest).filter (fun p => p.1 < n) = [] := by
        rw [List.filter_eq_nil_iff]
        intro q hq
        rcases List.mem_cons.mp hq with rfl | hq
        · simp
        · simp only [decide_eq_true_eq]
          exact not_lt_of_gt (hsorted.1 q hq)
      rw [hfilter]
      simp
    · have hmn : m < n := hsorted.1 (n, d) hmem
      obtain ⟨b, hb, hnum, hstart, hstop⟩ :=
        ih (t + e) hsorted.2 n d hmem
      refine ⟨b, by simp [slide_boundaries_go, hb], hnum, ?_, hstop⟩
      rw [hstart]
      have hfilter : ((m, e) :: rest).filter (fun p => p.1 < n) =
          (m, e) :: rest.filter (fun p => p.1 < n) := by
        rw [List.filter_cons_of_pos]
        simp [hmn]
      rw [hfilter]
      simp only [List.map_cons, List.sum_cons]
      ring

theorem slide_boundaries_go_chain (l : List (ℕ × ℚ)) :
    ∀ (t : ℚ), List.Chain' (fun a b => a.stop = b.start)
      (slide_boundaries_go l t) := by
  induction l with
  | nil =>
    intro t
    simp [slide_boundaries_go]
  | cons p rest ih =>
    intro t
    obtain ⟨n, d⟩ := p
    rw [slide_boundaries_go]
    refine List.chain'_cons'.mpr ⟨?_, ih (t + d)⟩
    intro b hb
    cases rest with
    | nil => simp [slide_boundaries_go] at hb
    | cons q qs =>
      obtain ⟨k, e⟩ := q
      rw [slide_boundaries_go] at hb
      simp at hb
      subst hb
      simp

theorem slide_boundaries_go_map_num (l : List (ℕ × ℚ)) :
    ∀ (t : ℚ), (slide_boundaries_go l t).map SlideBoundary.slide_num =
      l.map Prod.fst := by
  induction l with
  | nil =>
    intro t
    simp [slide_boundaries_go]
  | cons p rest ih =>
    intro t
    obtain ⟨n, d⟩ := p
    simp [slide_boundaries_go, ih]

/-- C5: the re-binner's boundary list is built over slide numbers in
ascending numeric order regardless of the mapping's insertion order:
slide `n`'s boundary starts at the sum of the durations of all slides
with smaller number, ends at `start + duration(n)`, and the boundary
list is a contiguous (`Chain'` of `stop = start`), slide-number-sorted
cumulative partition of the timeline. -/
theorem C5_cumulative_boundaries (audio_durations : List (ℕ × ℚ))
    (n : ℕ) (d : ℚ)
    (hkeys : audio_durations.Pairwise fun p q => p.1 ≠ q.1)
    (hmem : (n, d) ∈ audio_durations) :
    (∃ b ∈ slide_boundaries audio_durations, b.slide_num = n ∧
      b.start =
        ((audio_durations.filter fun p => p.1 < n).map Prod.snd).sum ∧
      b.stop = b.start + d) ∧
    List.Chain' (fun a b => a.stop = b.start)
      (slide_boundaries audio_durations) ∧
    (slide_boundaries audio_durations).Pairwise
      (fun a b => a.slide_num < b.slide_num) := by
  have hsorted := sort_keys_sorted_lt audio_durations hkeys
  refine ⟨?_, slide_boundaries_go_chain _ 0, ?_⟩
  · obtain ⟨b, hb, hnum, hstart, hstop⟩ :=
      slide_boundaries_go_mem_of_sorted (sort_keys audio_durations) 0
        hsorted n d ((sort_keys_perm audio_durations).mem_iff.mpr hmem)
    refine ⟨b, hb, hnum, ?_, hstop⟩
    rw [hstart]
    have hperm :
        (((sort_keys audio_durations).filter fun p => p.1 < n).map
          Prod.snd).Perm
        ((audio_durations.filter fun p => p.1 < n).map Prod.snd) :=
      ((sort_keys_perm audio_durations).filter _).map Prod.snd
    rw [hperm.sum_eq]
    ring
  · rw [show (fun a b : SlideBoundary => a.slide_num < b.slide_num) =
      (fun a b : SlideBoundary =>
        SlideBoundary.slide_num a < SlideBoundary.slide_num b) from rfl,
      ← List.pairwise_map, slide_boundaries,
      slide_boundaries_go_map_num, List.pairwise_map]
    exact hsorted

theorem C5_cumulative_boundaries_witness :
    (∃ b ∈ slide_boundaries [(2, 4), (1, 3)], b.slide_num = 2 ∧
      b.start =
        ((([(2, 4), (1, 3)] : List (ℕ × ℚ)).filter
          fun p => p.1 < 2).map Prod.snd).sum ∧
      b.stop = b.start + 4) ∧
    List.Chain' (fun a b => a.stop = b.start)
      (slide_boundaries [(2, 4), (1, 3)]) ∧
    (slide_boundaries [(2, 4), (1, 3)]).Pairwise
      (fun a b => a.slide_num < b.slide_num) :=
  C5_cumulative_boundaries [(2, 4), (1, 3)] 2 4
    (by simp) (by simp)

/-- C7 counterexample: `allocate(0, ["a"])` — a slide whose measured
duration is `0` with the single sentence `"a"` — yields the empty
sequence, not the one zero-width segment `{0,0}` the claim asserts: the
code skips every slide with `duration == 0`. -/
theorem C7_counterexample :
    slide_segments (fun _ => ["a"])
      { slide_number := 1, image_path := "", narration_text := "a",
        duration := 0, start_time := 0 } = [] ∧
    slide_segments (fun _ => ["a"])
      { slide_number := 1, image_path := "", narration_text := "a",
        duration := 0, start_time := 0 } ≠
      [{ text := "a", start_time := 0, end_time := 0 }] := by
  have h : slide_segments (fun _ => ["a"])
      { slide_number := 1, image_path := "", narration_text := "a",
        duration := 0, start_time := 0 } = [] := by
    simp [slide_segments]
  refine ⟨h, ?_⟩
  rw [h]
  simp

/-- C7 amended: calling the allocator on a slide with
`total_duration = 0` returns the empty sequence whatever the sentence
list — the slide is skipped by the `duration == 0` guard (matching §4.1
of the specification rather than §8's degenerate-case table). -/
theorem C7_zero_duration_empty (split : String → List String)
    (slide : SlideContent) (h : slide.duration = 0) :
    slide_segments split slide = [] := by
  simp [slide_segments, h]

theorem C7_zero_duration_empty_witness :
    slide_segments (fun _ => ["a"])
      { slide_number := 1, image_path := "", narration_text := "a",
        duration := 0, start_time := 0 } = [] :=
  C7_zero_duration_empty (fun _ => ["a"])
    { slide_number := 1, image_path := "", narration_text := "a",
      duration := 0, start_time := 0 } rfl

/-- C8: neither core component fails on empty input: the allocator
returns the empty sequence when sentence segmentation yields no
sentences, and the re-binner returns the empty mapping when there are no
cues or no slides. -/
theorem C8_empty_inputs (split : String → List String)
    (slide : SlideContent) (cues : List Cue)
    (audio_durations : List (ℕ × ℚ))
    (hsplit : split slide.narration_text = []) :
    slide_segments split slide = [] ∧
    rebin audio_durations [] = [] ∧
    rebin [] cues = [] := by
  refine ⟨by simp [slide_segments, hsplit], rfl, ?_⟩
  have h : ∀ (cs : List Cue) (m : List (ℕ × List SubtitleSegment)),
      List.foldl (rebin_step []) m cs = m := by
    intro cs
    induction cs with
    | nil => intro m; rfl
    | cons c rest ih =>
      intro m
      rw [List.foldl_cons, show rebin_step [] m c = m from rfl]
      exact ih m
  show List.foldl (rebin_step (slide_boundaries [])) [] cues = []
  rw [show slide_boundaries [] = [] from rfl]
  exact h cues []

theorem C8_empty_inputs_witness :
    slide_segments (fun _ => [])
      { slide_number := 1, image_path := "", narration_text := "a.",
        duration := 5, start_time := 0 } = [] ∧
    rebin [(1, 5)] [] = [] ∧
    rebin [] [⟨1, 2, "x"⟩] = [] :=
  C8_empty_inputs (fun _ => [])
    { slide_number := 1, image_path := "", narration_text := "a.",
      duration := 5, start_time := 0 } [⟨1, 2, "x"⟩] [(1, 5)] rfl

/-! ## Audio sequencing (`generate_audio_segments`) -/

/-- The slide loop of `LectureTTSGenerator.generate_audio_segments`
(`lecture_generator.py` lines 195–213), parameterized by the running
`cumulative` total: a slide whose stripped narration is empty is skipped
(left unchanged — its `duration`/`start_time` fields are not touched and
`cumulative` does not advance); otherwise its audio is synthesized and
measured (`measure` stands for the external TTS + `librosa` decode,
mapping narration text to a duration), `duration` and `start_time` are
set, and `cumulative` advances by the measured duration. -/
def generate_audio_segments_go (measure : String → ℚ) :
    ℚ → List SlideContent → List SlideContent
  | _, [] => []
  | cumulative, slide :: rest =>
    if str_strip slide.narration_text = "" then
      slide :: generate_audio_segments_go measure cumulative rest
    else
      { slide with duration := measure slide.narration_text,
                   start_time := cumulative } ::
        generate_audio_segments_go measure
          (cumulative + measure slide.narration_text) rest

/-- `LectureTTSGenerator.generate_audio_segments`: the state of
`self.slides` after the sequencing pass, starting from `cumulative = 0.0`. -/
def generate_audio_segments (measure : String → ℚ)
    (slides : List SlideContent) : List SlideContent :=
  generate_audio_segments_go measure 0 slides

theorem generate_audio_segments_go_start (measure : String → ℚ)
    (slides : List SlideContent) :
    ∀ (c : ℚ) (i : ℕ) (s : SlideContent),
      (∀ t ∈ slides, str_strip t.narration_text = "" → t.duration = 0) →
      (generate_audio_segments_go measure c slides)[i]? = some s →
      str_strip s.narration_text ≠ "" →
      s.start_time = c +
        (((generate_audio_segments_go measure c slides).take i).map
          SlideContent.duration).sum := by
  induction slides with
  | nil =>
    intro c i s _ hsome _
    simp [generate_audio_segments_go] at hsome
  | cons sl rest ih =>
    intro c i s h0 hsome htext
    by_cases hblk : str_strip sl.narration_text = ""
    · rw [generate_audio_segments_go, if_pos hblk] at hsome ⊢
      cases i with
      | zero =>
        rw [List.getElem?_cons_zero, Option.some.injEq] at hsome
        exact absurd (hsome ▸ hblk) htext
      | succ i =>
        rw [List.getElem?_cons_succ] at hsome
        have hrec := ih c i s
          (fun t ht => h0 t (List.mem_cons_of_mem sl ht)) hsome htext
        have hd0 : sl.duration = 0 := h0 sl (List.mem_cons_self sl rest) hblk
        rw [List.take_succ_cons, List.map_cons, List.sum_cons, hd0, hrec]
        ring
    · rw [generate_audio_segments_go, if_neg hblk] at hsome ⊢
      cases i with
      | zero =>
        rw [List.getElem?_cons_zero, Option.some.injEq] at hsome
        rw [← hsome]
        simp
      | succ i =>
        rw [List.getElem?_cons_succ] at hsome
        have hrec := ih (c + measure sl.narration_text) i s
          (fun t ht => h0 t (List.mem_cons_of_mem sl ht)) hsome htext
        rw [List.take_succ_cons, List.map_cons, List.sum_cons, hrec]
        simp only
        ring

/-- C6 counterexample: with slide 1 non-empty (measured duration 2) and
slide 2's narration empty, after `generate_audio_segments` slide 2's
`start_time` is still `0`, not the sum `2` of the durations of the slides
before it — empty-narration slides are skipped and keep `start_time = 0`,
so the claimed invariant fails when it is extended to them. -/
theorem C6_counterexample :
    Option.map SlideContent.start_time
        ((generate_audio_segments (fun _ => 2)
          [{ slide_number := 1, image_path := "", narration_text := "a.",
             duration := 0, start_time := 0 },
           { slide_number := 2, image_path := "", narration_text := "",
             duration := 0, start_time := 0 }])[1]?) ≠
      some ((((generate_audio_segments (fun _ => 2)
          [{ slide_number := 1, image_path := "", narration_text := "a.",
             duration := 0, start_time := 0 },
           { slide_number := 2, image_path := "", narration_text := "",
             duration := 0, start_time := 0 }]).take 1).map
        SlideContent.duration).sum) := by
  norm_num +decide [generate_audio_segments, generate_audio_segments_go,
    str_strip, List.dropWhile]

/-- C6 amended: after the sequencing pass, every slide whose narration is
non-blank has `start_time` equal to the sum of the durations of all
preceding slides in the session (blank-narration slides are skipped,
keeping their load-time `duration = 0` and `start_time = 0`, and
contribute zero to later sums). -/
theorem C6_cumulative_start (measure : String → ℚ)
    (slides : List SlideContent) (i : ℕ) (s : SlideContent)
    (h0 : ∀ t ∈ slides, str_strip t.narration_text = "" → t.duration = 0)
    (hsome : (generate_audio_segments measure slides)[i]? = some s)
    (htext : str_strip s.narration_text ≠ "") :
    s.start_time =
      (((generate_audio_segments measure slides).take i).map
        SlideContent.duration).sum := by
  have h := generate_audio_segments_go_start measure slides 0 i s h0
    hsome htext
  rw [h]
  rw [generate_audio_segments]
  ring

theorem C6_cumulative_start_witness :
    (generate_audio_segments (fun _ => 3)
        [{ slide_number := 1, image_path := "", narration_text := "a.",
           duration := 0, start_time := 0 },
         { slide_number := 2, image_path := "", narration_text := "",
           duration := 0, start_time := 0 },
         { slide_number := 3, image_path := "", narration_text := "b.",
           duration := 0, start_time := 0 }])[2]? =
      some { slide_number := 3, image_path := "", narration_text := "b.",
             duration := 3, start_time := 3 } ∧
    (3 : ℚ) =
      (((generate_audio_segments (fun _ => 3)
        [{ slide_number := 1, image_path := "", narration_text := "a.",
           duration := 0, start_time := 0 },
         { slide_number := 2, image_path := "", narration_text := "",
           duration := 0, start_time := 0 },
         { slide_number := 3, image_path := "", narration_text := "b.",
           duration := 0, start_time := 0 }]).take 2).map
        SlideContent.duration).sum := by
  have hsome : (generate_audio_segments (fun _ => 3)
        [{ slide_number := 1, image_path := "", narration_text := "a.",
           duration := 0, start_time := 0 },
         { slide_number := 2, image_path := "", narration_text := "",
           duration := 0, start_time := 0 },
         { slide_number := 3, image_path := "", narration_text := "b.",
           duration := 0, start_time := 0 }])[2]? =
      some { slide_number := 3, image_path := "", narration_text := "b.",
             duration := 3, start_time := 3 } := by
    norm_num +decide [generate_audio_segments, generate_audio_segments_go,
      str_strip, List.dropWhile]
  refine ⟨hsome, ?_⟩
  have h := C6_cumulative_start (fun _ => 3)
    [{ slide_number := 1, image_path := "", narration_text := "a.",
       duration := 0, start_time := 0 },
     { slide_number := 2, image_path := "", narration_text := "",
       duration := 0, start_time := 0 },
     { slide_number := 3, image_path := "", narration_text := "b.",
       duration := 0, start_time := 0 }] 2
    { slide_number := 3, image_path := "", narration_text := "b.",
      duration := 3, start_time := 3 }
    (by decide) hsome (by decide)
  simpa using h

/-! ## Text normalization ending (`TextPreprocessor.clean_for_tts`) -/

/-- Final step of `TextPreprocessor.clean_for_tts`
(`lecture_generator.py` lines 122–128; identically
`lecture_gen.py` lines 130–135):

```
text = text.strip()
if text and text[-1] not in '.!?':
    text += '.'
return text
```

Every value returned by `clean_for_tts` (other than the early-exit `""`
for falsy input) is this function applied to the text produced by the
preceding substitution steps, so a property of `clean_for_tts_ending`
holding for all inputs holds for every `clean_for_tts` return value. -/
def clean_for_tts_ending (text : String) : String :=
  match (str_strip text).data.getLast? with
  | some c =>
    if c = '.' ∨ c = '!' ∨ c = '?' then str_strip text
    else str_strip text ++ "."
  | none => str_strip text

/-- C10: whenever `clean_for_tts` returns a non-empty string, its last
character is `'.'`, `'!'` or `'?'` — a terminal period is appended when
the stripped text does not already end in sentence-final punctuation. -/
theorem C10_terminal_punctuation (text : String)
    (h : clean_for_tts_ending text ≠ "") :
    (clean_for_tts_ending text).data.getLast? = some '.' ∨
    (clean_for_tts_ending text).data.getLast? = some '!' ∨
    (clean_for_tts_ending text).data.getLast? = some '?' := by
  cases hlast : (str_strip text).data.getLast? with
  | none =>
    exfalso
    apply h
    rw [clean_for_tts_ending, hlast]
    have hdata : (str_strip text).data = [] :=
      List.getLast?_eq_none_iff.mp hlast
    exact String.ext hdata
  | some c =>
    simp only [clean_for_tts_ending, hlast]
    by_cases hc : c = '.' ∨ c = '!' ∨ c = '?'
    · rw [if_pos hc]
      rcases hc with rfl | rfl | rfl
      · exact Or.inl hlast
      · exact Or.inr (Or.inl hlast)
      · exact Or.inr (Or.inr hlast)
    · rw [if_neg hc]
      refine Or.inl ?_
      have hdata : (str_strip text ++ ".").data =
          (str_strip text).data ++ ['.'] := rfl
      rw [hdata, List.getLast?_concat]

theorem C10_terminal_punctuation_witness :
    clean_for_tts_ending "hi" ≠ "" ∧
    ((clean_for_tts_ending "hi").data.getLast? = some '.' ∨
     (clean_for_tts_ending "hi").data.getLast? = some '!' ∨
     (clean_for_tts_ending "hi").data.getLast? = some '?') :=
  ⟨by decide, C10_terminal_punctuation "hi" (by decide)⟩
